import Mathlib

/-!
# Verification of the mac-stats CPU-comparison scripts

Shallow embedding of `scripts/monitor_cpu_comparison.py` and
`scripts/take-screenshot.py`.  Python strings are modelled as `List Char`,
Python floats as `ℚ`, and fallible operations (Python exceptions) as
`Option`.  Side-effecting code is modelled as functions producing explicit
event traces, parameterised by the outcomes of the external calls.
-/

namespace MacStats

/-! ## Python string primitives -/

/-- Whitespace characters stripped by Python's `str.strip()` (ASCII subset,
which covers everything `ps`/`pgrep` can emit). -/
def pySpace (c : Char) : Bool :=
  c = ' ' || c = '\t' || c = '\n' || c = '\x0d' || c = '\x0b' || c = '\x0c'

/-- Python `str.strip()`. -/
def pyStrip (s : List Char) : List Char :=
  ((s.dropWhile pySpace).reverse.dropWhile pySpace).reverse

/-- Number of occurrences of the character `c`, Python `str.count(c)` for a
single-character argument. -/
def countChar (c : Char) : List Char → Nat
  | [] => 0
  | x :: xs => (if x = c then 1 else 0) + countChar c xs

/-- Python `str.split(c)` for a single-character separator: splits at every
occurrence, keeping empty fields. -/
def splitOnChar (c : Char) : List Char → List (List Char)
  | [] => [[]]
  | x :: xs =>
    if x = c then
      [] :: splitOnChar c xs
    else
      match splitOnChar c xs with
      | [] => [[x]]
      | p :: ps => (x :: p) :: ps

/-- Python `str.split(c, 1)`: the part before the first occurrence of `c` and
the part after it; `none` when `c` does not occur. -/
def splitFirst (c : Char) : List Char → Option (List Char × List Char)
  | [] => none
  | x :: xs =>
    if x = c then some ([], xs)
    else (splitFirst c xs).map (fun p => (x :: p.1, p.2))

/-- Value of a digit string, most significant digit first. -/
def digitsVal (ds : List Char) : Nat :=
  ds.foldl (fun a c => 10 * a + (c.toNat - 48)) 0

/-- Python `str.isdigit()` (restricted to ASCII digits, the only digits the
OS tools emit). -/
def pyIsdigit (s : List Char) : Bool :=
  !s.isEmpty && s.all Char.isDigit

/-- Python `int(str)`: surrounding whitespace stripped, optional sign, then a
nonempty run of digits.  (Digit-group underscores, an exotic Python literal
feature never produced by `ps`, are not modelled.) -/
def pyInt (s : List Char) : Option Int :=
  let t := pyStrip s
  if t.head? = some '+' then
    if pyIsdigit t.tail then some (digitsVal t.tail) else none
  else if t.head? = some '-' then
    if pyIsdigit t.tail then some (-(digitsVal t.tail : Int)) else none
  else
    if pyIsdigit t then some (digitsVal t) else none

/-- Unsigned decimal literal accepted by Python `float(str)`:
`digits`, `digits.`, `.digits` or `digits.digits`. -/
def pyFloatCore (ds : List Char) : Option ℚ :=
  match splitFirst '.' ds with
  | none => if pyIsdigit ds then some (digitsVal ds) else none
  | some (ip, fp) =>
    if (!ip.isEmpty || !fp.isEmpty) && ip.all Char.isDigit && fp.all Char.isDigit then
      some ((digitsVal ip : ℚ) + (digitsVal fp : ℚ) / (10 : ℚ) ^ fp.length)
    else
      none

/-- Python `float(str)` restricted to finite decimal literals (the only form
`ps` emits): surrounding whitespace stripped, optional sign, then a decimal
literal.  Exponents and the symbolic `inf`/`nan` literals are not modelled. -/
def pyFloat (s : List Char) : Option ℚ :=
  let t := pyStrip s
  if t.head? = some '+' then pyFloatCore t.tail
  else if t.head? = some '-' then (pyFloatCore t.tail).map Neg.neg
  else pyFloatCore t

/-! ## `parse_cpu_time` -/

/-- The colon-splitting part of `parse_cpu_time` (reached when the day-format
branch does not apply): three fields are `HH:MM:SS`, two are `MM:SS[.frac]`,
anything else is fed to `float()` whole; any conversion failure yields `0.0`. -/
def parseColonTime (t : List Char) : ℚ :=
  match splitOnChar ':' t with
  | [p0, p1, p2] =>
    match pyInt p0, pyInt p1, pyFloat p2 with
    | some h, some m, some s => h * 3600 + m * 60 + s
    | _, _, _ => 0
  | [p0, p1] =>
    match pyInt p0, pyFloat p1 with
    | some m, some s => m * 60 + s
    | _, _ => 0
  | _ =>
    match pyFloat t with
    | some v => v
    | none => 0

theorem splitFirst_eq_some {c : Char} :
    ∀ {s a b : List Char}, splitFirst c s = some (a, b) →
      s = a ++ c :: b ∧ c ∉ a := by
  intro s
  induction s with
  | nil => intro a b h; simp [splitFirst] at h
  | cons x xs ih =>
    intro a b h
    by_cases hx : x = c
    · simp [splitFirst, hx] at h
      obtain ⟨ha, hb⟩ := h
      subst ha hb hx
      simp
    · rw [splitFirst, if_neg hx] at h
      obtain ⟨p, hp, heq⟩ := Option.map_eq_some'.mp h
      obtain ⟨h1, h2⟩ := ih hp
      have ha : a = x :: p.1 := by
        have := congrArg Prod.fst heq; simpa using this.symm
      have hb : b = p.2 := by
        have := congrArg Prod.snd heq; simpa using this.symm
      subst ha hb
      refine ⟨by rw [h1]; simp, ?_⟩
      intro hc
      rcases List.mem_cons.mp hc with h3 | h3
      · exact hx h3.symm
      · exact h2 h3

theorem countChar_append (c : Char) (a b : List Char) :
    countChar c (a ++ b) = countChar c a + countChar c b := by
  induction a with
  | nil => simp [countChar]
  | cons x xs ih => simp [countChar, ih]; omega

theorem countChar_reverse (c : Char) (s : List Char) :
    countChar c s.reverse = countChar c s := by
  induction s with
  | nil => rfl
  | cons x xs ih =>
    simp [countChar, List.reverse_cons, countChar_append, ih]
    omega

theorem countChar_le_of_sublist {c : Char} {a b : List Char}
    (h : a.Sublist b) : countChar c a ≤ countChar c b := by
  induction h with
  | slnil => exact le_refl _
  | cons x _ ih => simp [countChar]; omega
  | cons₂ x _ ih => simp [countChar]; omega

theorem countChar_pyStrip_le (c : Char) (s : List Char) :
    countChar c (pyStrip s) ≤ countChar c s := by
  unfold pyStrip
  calc countChar c ((s.dropWhile pySpace).reverse.dropWhile pySpace).reverse
      = countChar c ((s.dropWhile pySpace).reverse.dropWhile pySpace) :=
        countChar_reverse _ _
    _ ≤ countChar c (s.dropWhile pySpace).reverse :=
        countChar_le_of_sublist (List.dropWhile_sublist _)
    _ = countChar c (s.dropWhile pySpace) := countChar_reverse _ _
    _ ≤ countChar c s := countChar_le_of_sublist (List.dropWhile_sublist _)

theorem countChar_eq_zero {c : Char} {s : List Char}
    (h : ∀ x ∈ s, x ≠ c) : countChar c s = 0 := by
  induction s with
  | nil => rfl
  | cons x xs ih =>
    have hx : x ≠ c := h x (by simp)
    simp [countChar, hx, ih (fun y hy => h y (by simp [hy]))]

theorem dropWhile_eq_self_of_forall {p : Char → Bool} {s : List Char}
    (h : ∀ x ∈ s, p x = false) : s.dropWhile p = s := by
  cases s with
  | nil => rfl
  | cons x xs =>
    have := h x (by simp)
    simp [List.dropWhile, this]

theorem pyStrip_eq_self {s : List Char}
    (h : ∀ x ∈ s, pySpace x = false) : pyStrip s = s := by
  unfold pyStrip
  rw [dropWhile_eq_self_of_forall h]
  rw [dropWhile_eq_self_of_forall (fun x hx => h x (List.mem_reverse.mp hx))]
  exact List.reverse_reverse s

theorem splitFirst_eq_none {c : Char} {s : List Char}
    (h : countChar c s = 0) : splitFirst c s = none := by
  induction s with
  | nil => rfl
  | cons x xs ih =>
    simp [countChar] at h
    obtain ⟨h1, h2⟩ := h
    simp [splitFirst, h1, ih h2]

theorem splitFirst_append {c : Char} {a b : List Char}
    (h : countChar c a = 0) : splitFirst c (a ++ c :: b) = some (a, b) := by
  induction a with
  | nil => simp [splitFirst]
  | cons x xs ih =>
    simp [countChar] at h
    obtain ⟨h1, h2⟩ := h
    simp [splitFirst, h1, ih h2]

theorem splitOnChar_eq_single {c : Char} {s : List Char}
    (h : countChar c s = 0) : splitOnChar c s = [s] := by
  induction s with
  | nil => rfl
  | cons x xs ih =>
    simp [countChar] at h
    obtain ⟨h1, h2⟩ := h
    simp [splitOnChar, h1, ih h2]

theorem splitOnChar_append {c : Char} {a b : List Char}
    (h : countChar c a = 0) : splitOnChar c (a ++ c :: b) = a :: splitOnChar c b := by
  induction a with
  | nil => simp [splitOnChar]
  | cons x xs ih =>
    simp [countChar] at h
    obtain ⟨h1, h2⟩ := h
    simp [splitOnChar, h1, ih h2]

theorem pySpace_isDigit_false {c : Char} (h : pySpace c = true) :
    c.isDigit = false := by
  unfold pySpace at h
  simp only [Bool.or_eq_true, decide_eq_true_eq] at h
  rcases h with ((((h | h) | h) | h) | h) | h <;> (subst h; decide)

theorem isDigit_ne_space {c : Char} (h : c.isDigit = true) : pySpace c = false := by
  cases hsp : pySpace c with
  | false => rfl
  | true => rw [pySpace_isDigit_false hsp] at h; exact absurd h (by simp)

theorem digitDot_ne_space {c : Char} (h : (c.isDigit || c = '.') = true) :
    pySpace c = false := by
  rcases Bool.or_eq_true_iff.mp h with h1 | h1
  · exact isDigit_ne_space h1
  · have : c = '.' := by simpa using h1
    subst this; rfl

theorem isDigit_ne_colon {c : Char} (h : c.isDigit = true) : c ≠ ':' := by
  intro he; subst he; simp [Char.isDigit] at h

theorem isDigit_ne_dash {c : Char} (h : c.isDigit = true) : c ≠ '-' := by
  intro he; subst he; simp [Char.isDigit] at h

theorem isDigit_ne_plus {c : Char} (h : c.isDigit = true) : c ≠ '+' := by
  intro he; subst he; simp [Char.isDigit] at h

theorem digitDot_ne_colon {c : Char} (h : (c.isDigit || c = '.') = true) : c ≠ ':' := by
  rcases Bool.or_eq_true_iff.mp h with h1 | h1
  · exact isDigit_ne_colon h1
  · have : c = '.' := by simpa using h1
    subst this; intro he; exact absurd he (by decide)

theorem digitDot_ne_dash {c : Char} (h : (c.isDigit || c = '.') = true) : c ≠ '-' := by
  rcases Bool.or_eq_true_iff.mp h with h1 | h1
  · exact isDigit_ne_dash h1
  · have : c = '.' := by simpa using h1
    subst this; intro he; exact absurd he (by decide)

/-- `int()` succeeds on a nonempty digit string and returns its value. -/
theorem pyInt_of_digits {s : List Char} (h : pyIsdigit s = true) :
    pyInt s = some ((digitsVal s : Int)) := by
  have hss : pyStrip s = s := by
    refine pyStrip_eq_self (fun x hx => ?_)
    have := (List.all_eq_true.mp (Bool.and_eq_true_iff.mp h).2) x hx
    exact isDigit_ne_space this
  have hne : ¬s.isEmpty = true := by
    intro he; simp [pyIsdigit, he] at h
  obtain ⟨x, xs, hx⟩ : ∃ x xs, s = x :: xs := by
    cases s with
    | nil => simp at hne
    | cons a l => exact ⟨a, l, rfl⟩
  have hxd : x.isDigit = true := by
    subst hx
    exact (List.all_eq_true.mp (Bool.and_eq_true_iff.mp h).2) x (by simp)
  unfold pyInt
  rw [hss]
  rw [if_neg (by subst hx; simp; intro he; exact isDigit_ne_plus hxd he)]
  rw [if_neg (by subst hx; simp; intro he; exact isDigit_ne_dash hxd he)]
  rw [if_pos h]

/-- `float()` succeeds on a nonempty digit string and returns its value. -/
theorem pyFloatCore_of_digits {s : List Char} (h : pyIsdigit s = true) :
    pyFloatCore s = some ((digitsVal s : ℚ)) := by
  have hdot : countChar '.' s = 0 := by
    refine countChar_eq_zero (fun x hx => ?_)
    have hxd := (List.all_eq_true.mp (Bool.and_eq_true_iff.mp h).2) x hx
    intro he; subst he; simp [Char.isDigit] at hxd
  unfold pyFloatCore
  rw [splitFirst_eq_none hdot, if_pos h]

theorem pyFloat_of_digitDot {s : List Char} {v : ℚ}
    (hs : (s.all fun c => c.isDigit || c = '.') = true)
    (h : pyFloat s = some v) : pyFloatCore s = some v := by
  have hss : pyStrip s = s :=
    pyStrip_eq_self (fun x hx => digitDot_ne_space ((List.all_eq_true.mp hs) x hx))
  unfold pyFloat at h
  rw [hss] at h
  cases s with
  | nil => simpa using h
  | cons x xs =>
    have hxd := (List.all_eq_true.mp hs) x (by simp)
    rw [if_neg (by simp; intro he; exact absurd he (by
          rcases Bool.or_eq_true_iff.mp hxd with h1 | h1
          · exact isDigit_ne_plus h1
          · have : x = '.' := by simpa using h1
            subst this; exact (by decide)))] at h
    rw [if_neg (by simp; intro he; exact absurd he (digitDot_ne_dash hxd))] at h
    exact h

/-- `parse_cpu_time`: a string with exactly one dash is `DD-<rest>` — days
times 86400 plus the recursive parse of the remainder; otherwise the string
is split on colons; every conversion failure is caught and yields `0.0`.

In the source the day branch calls `parse_cpu_time` itself on the remainder;
since the remainder of a string with exactly one dash is dash-free, that
recursive call always lands in the colon branch, so it is written here as
`parseColonTime (pyStrip timePart)`.  `parse_cpu_time_day_step` below proves
that this definition satisfies the source's recursive equation. -/
def parse_cpu_time (s : List Char) : ℚ :=
  let t := pyStrip s
  if countChar '-' t = 1 then
    match splitFirst '-' t with
    | some (dayPart, timePart) =>
      match pyInt dayPart with
      | some d => d * 86400 + parseColonTime (pyStrip timePart)
      | none => 0
    | none => 0
  else
    parseColonTime t

/-- The day branch of `parse_cpu_time` is exactly the source's recursion:
when the (stripped) input contains exactly one dash, the result is the day
count times 86400 plus `parse_cpu_time` applied to the remainder (or `0.0`
when the day part is not an integer). -/
theorem parse_cpu_time_day_step (s dayPart timePart : List Char)
    (h1 : countChar '-' (pyStrip s) = 1)
    (h2 : splitFirst '-' (pyStrip s) = some (dayPart, timePart)) :
    parse_cpu_time s =
      match pyInt dayPart with
      | some d => d * 86400 + parse_cpu_time timePart
      | none => 0 := by
  have hsplit : pyStrip s = dayPart ++ '-' :: timePart :=
    (splitFirst_eq_some h2).1
  have hcount : countChar '-' dayPart + (1 + countChar '-' timePart) = 1 := by
    have := h1
    rw [hsplit, countChar_append] at this
    simpa [countChar] using this
  have htp : countChar '-' timePart = 0 := by omega
  have htp' : countChar '-' (pyStrip timePart) = 0 :=
    Nat.le_zero.mp (htp ▸ countChar_pyStrip_le '-' timePart)
  have hrec : parse_cpu_time timePart = parseColonTime (pyStrip timePart) := by
    unfold parse_cpu_time
    rw [if_neg (by omega)]
  rw [hrec]
  unfold parse_cpu_time
  rw [if_pos h1, h2]

/-- The inputs on which `parse_cpu_time`'s numeric conversions all succeed,
branch by branch: day strings `DD-<rest>` need an integer day part (the
remainder is parsed recursively, contributing `0.0` when malformed, exactly
as in the source), `HH:MM:SS` needs two integers and a float, `MM:SS` an
integer and a float, and anything else must be a float.  A string is
malformed precisely when this predicate is false. -/
def cpuTimeWellFormed (s : List Char) : Bool :=
  let t := pyStrip s
  if countChar '-' t = 1 then
    match splitFirst '-' t with
    | some (dayPart, _) => (pyInt dayPart).isSome
    | none => false
  else
    match splitOnChar ':' t with
    | [a, b, c] => (pyInt a).isSome && (pyInt b).isSome && (pyFloat c).isSome
    | [a, b] => (pyInt a).isSome && (pyFloat b).isSome
    | _ => (pyFloat t).isSome

/-- Malformed input never raises: it yields `0.0`. -/
theorem parse_cpu_time_malformed {s : List Char}
    (h : cpuTimeWellFormed s = false) : parse_cpu_time s = 0 := by
  unfold cpuTimeWellFormed at h
  unfold parse_cpu_time
  by_cases hd : countChar '-' (pyStrip s) = 1
  · rw [if_pos hd] at h ⊢
    cases hsp : splitFirst '-' (pyStrip s) with
    | none => rfl
    | some p =>
      obtain ⟨dp, tp⟩ := p
      rw [hsp] at h
      cases hpi : pyInt dp with
      | none => simp [hpi]
      | some d => simp [hpi] at h
  · rw [if_neg hd] at h ⊢
    unfold parseColonTime
    cases h0 : splitOnChar ':' (pyStrip s) with
    | nil =>
      rw [h0] at h
      cases hf : pyFloat (pyStrip s) with
      | none => simp [hf]
      | some v => simp [hf] at h
    | cons a l1 =>
      rw [h0] at h
      cases l1 with
      | nil =>
        cases hf : pyFloat (pyStrip s) with
        | none => simp [hf]
        | some v => simp [hf] at h
      | cons b l2 =>
        cases l2 with
        | nil =>
          cases hia : pyInt a with
          | none => simp [hia]
          | some va =>
            cases hfb : pyFloat b with
            | none => simp [hia, hfb]
            | some vb => simp [hia, hfb] at h
        | cons c l3 =>
          cases l3 with
          | nil =>
            cases hia : pyInt a with
            | none => simp [hia]
            | some va =>
              cases hib : pyInt b with
              | none => simp [hia, hib]
              | some vb =>
                cases hfc : pyFloat c with
                | none => simp [hia, hib, hfc]
                | some vc => simp [hia, hib, hfc] at h
          | cons e l4 =>
            cases hf : pyFloat (pyStrip s) with
            | none => simp [hf]
            | some v => simp [hf] at h

/-- The `SS` format: a plain (unsigned, decimal) float literal parses to its
value. -/
theorem parse_cpu_time_plain {s : List Char} {v : ℚ}
    (hs : (s.all fun c => c.isDigit || c = '.') = true)
    (hf : pyFloat s = some v) : parse_cpu_time s = v := by
  have hall := List.all_eq_true.mp hs
  have hss : pyStrip s = s :=
    pyStrip_eq_self (fun x hx => digitDot_ne_space (hall x hx))
  have hdash : countChar '-' s = 0 :=
    countChar_eq_zero (fun x hx => digitDot_ne_dash (hall x hx))
  have hcolon : countChar ':' s = 0 :=
    countChar_eq_zero (fun x hx => digitDot_ne_colon (hall x hx))
  unfold parse_cpu_time
  rw [hss, if_neg (by omega)]
  unfold parseColonTime
  rw [splitOnChar_eq_single hcolon, hf]

/-- The `MM:SS[.frac]` format: minutes times sixty plus the seconds value. -/
theorem parse_cpu_time_mmss {m sec : List Char} {sv : ℚ}
    (hm : pyIsdigit m = true)
    (hsec : (sec.all fun c => c.isDigit || c = '.') = true)
    (hf : pyFloat sec = some sv) :
    parse_cpu_time (m ++ ':' :: sec) = (digitsVal m : ℚ) * 60 + sv := by
  have hmall := List.all_eq_true.mp (Bool.and_eq_true_iff.mp hm).2
  have hsall := List.all_eq_true.mp hsec
  have hss : pyStrip (m ++ ':' :: sec) = m ++ ':' :: sec := by
    refine pyStrip_eq_self (fun x hx => ?_)
    rcases List.mem_append.mp hx with h1 | h1
    · exact isDigit_ne_space (hmall x h1)
    · rcases List.mem_cons.mp h1 with h2 | h2
      · subst h2; rfl
      · exact digitDot_ne_space (hsall x h2)
  have hdash : countChar '-' (m ++ ':' :: sec) = 0 := by
    rw [countChar_append]
    have h1 : countChar '-' m = 0 :=
      countChar_eq_zero (fun x hx => isDigit_ne_dash (hmall x hx))
    have h2 : countChar '-' sec = 0 :=
      countChar_eq_zero (fun x hx => digitDot_ne_dash (hsall x hx))
    simp [countChar, h1, h2]
  have hmc : countChar ':' m = 0 :=
    countChar_eq_zero (fun x hx => isDigit_ne_colon (hmall x hx))
  have hsc : countChar ':' sec = 0 :=
    countChar_eq_zero (fun x hx => digitDot_ne_colon (hsall x hx))
  unfold parse_cpu_time
  rw [hss, if_neg (by omega)]
  unfold parseColonTime
  rw [splitOnChar_append hmc, splitOnChar_eq_single hsc]
  simp [pyInt_of_digits hm, hf]

/-- The `HH:MM:SS[.frac]` format. -/
theorem parse_cpu_time_hhmmss {hh m sec : List Char} {sv : ℚ}
    (hhh : pyIsdigit hh = true)
    (hm : pyIsdigit m = true)
    (hsec : (sec.all fun c => c.isDigit || c = '.') = true)
    (hf : pyFloat sec = some sv) :
    parse_cpu_time (hh ++ ':' :: (m ++ ':' :: sec)) =
      (digitsVal hh : ℚ) * 3600 + (digitsVal m : ℚ) * 60 + sv := by
  have hhall := List.all_eq_true.mp (Bool.and_eq_true_iff.mp hhh).2
  have hmall := List.all_eq_true.mp (Bool.and_eq_true_iff.mp hm).2
  have hsall := List.all_eq_true.mp hsec
  have hss : pyStrip (hh ++ ':' :: (m ++ ':' :: sec)) = hh ++ ':' :: (m ++ ':' :: sec) := by
    refine pyStrip_eq_self (fun x hx => ?_)
    rcases List.mem_append.mp hx with h1 | h1
    · exact isDigit_ne_space (hhall x h1)
    · rcases List.mem_cons.mp h1 with h2 | h2
      · subst h2; rfl
      · rcases List.mem_append.mp h2 with h3 | h3
        · exact isDigit_ne_space (hmall x h3)
        · rcases List.mem_cons.mp h3 with h4 | h4
          · subst h4; rfl
          · exact digitDot_ne_space (hsall x h4)
  have hhc : countChar ':' hh = 0 :=
    countChar_eq_zero (fun x hx => isDigit_ne_colon (hhall x hx))
  have hmc : countChar ':' m = 0 :=
    countChar_eq_zero (fun x hx => isDigit_ne_colon (hmall x hx))
  have hsc : countChar ':' sec = 0 :=
    countChar_eq_zero (fun x hx => digitDot_ne_colon (hsall x hx))
  have hdash : countChar '-' (hh ++ ':' :: (m ++ ':' :: sec)) = 0 := by
    rw [countChar_append]
    have h1 : countChar '-' hh = 0 :=
      countChar_eq_zero (fun x hx => isDigit_ne_dash (hhall x hx))
    have h2 : countChar '-' m = 0 :=
      countChar_eq_zero (fun x hx => isDigit_ne_dash (hmall x hx))
    have h3 : countChar '-' sec = 0 :=
      countChar_eq_zero (fun x hx => digitDot_ne_dash (hsall x hx))
    simp [countChar, countChar_append, h1, h2, h3]
  unfold parse_cpu_time
  rw [hss, if_neg (by omega)]
  unfold parseColonTime
  rw [splitOnChar_append hhc, splitOnChar_append hmc, splitOnChar_eq_single hsc]
  simp [pyInt_of_digits hhh, pyInt_of_digits hm, hf]

/-- The `DD-<rest>` format: days times 86400 plus the recursive parse of the
remainder. -/
theorem parse_cpu_time_day {d rest : List Char}
    (hd : pyIsdigit d = true)
    (hrest : countChar '-' rest = 0)
    (hnsp : (rest.all fun c => !pySpace c) = true) :
    parse_cpu_time (d ++ '-' :: rest) =
      (digitsVal d : ℚ) * 86400 + parse_cpu_time rest := by
  have hdall := List.all_eq_true.mp (Bool.and_eq_true_iff.mp hd).2
  have hrall := List.all_eq_true.mp hnsp
  have hss : pyStrip (d ++ '-' :: rest) = d ++ '-' :: rest := by
    refine pyStrip_eq_self (fun x hx => ?_)
    rcases List.mem_append.mp hx with h1 | h1
    · exact isDigit_ne_space (hdall x h1)
    · rcases List.mem_cons.mp h1 with h2 | h2
      · subst h2; rfl
      · simpa using hrall x h2
  have hdd : countChar '-' d = 0 :=
    countChar_eq_zero (fun x hx => isDigit_ne_dash (hdall x hx))
  have hcount : countChar '-' (d ++ '-' :: rest) = 1 := by
    rw [countChar_append]; simp [countChar, hdd, hrest]
  have hrstrip : pyStrip rest = rest :=
    pyStrip_eq_self (fun x hx => by simpa using hrall x hx)
  have hrec : parse_cpu_time rest = parseColonTime (pyStrip rest) := by
    unfold parse_cpu_time
    rw [hrstrip, if_neg (by omega)]
  rw [hrec]
  unfold parse_cpu_time
  rw [hss, if_pos hcount, splitFirst_append hdd]
  simp [pyInt_of_digits hd]

/-- C1: `parse_cpu_time` returns the elapsed CPU seconds according to the
format rules — `SS` as a plain float; `MM:SS[.frac]` as minutes·60+seconds;
`HH:MM:SS` as hours·3600+minutes·60+seconds; `DD-<rest>` as days·86400 plus
the recursive parse of the remainder — matching the fixed vectors
`"0:01.29" = 1.29`, `"1:23:45" = 5025.0`, `"2-12:34:56" = 218096.0`, and for
every malformed input (one on which the applicable branch's numeric
conversions fail, e.g. `"garbage"`) it returns `0.0` rather than raising. -/
theorem C1_parse_cpu_time_correct :
    (parse_cpu_time "0:01.29".data = 129 / 100 ∧
     parse_cpu_time "1:23:45".data = 5025 ∧
     parse_cpu_time "2-12:34:56".data = 218096 ∧
     parse_cpu_time "garbage".data = 0) ∧
    (∀ s v, (s.all fun c => c.isDigit || c = '.') = true →
        pyFloat s = some v → parse_cpu_time s = v) ∧
    (∀ m sec sv, pyIsdigit m = true →
        (sec.all fun c => c.isDigit || c = '.') = true →
        pyFloat sec = some sv →
        parse_cpu_time (m ++ ':' :: sec) = (digitsVal m : ℚ) * 60 + sv) ∧
    (∀ hh m sec sv, pyIsdigit hh = true → pyIsdigit m = true →
        (sec.all fun c => c.isDigit || c = '.') = true →
        pyFloat sec = some sv →
        parse_cpu_time (hh ++ ':' :: (m ++ ':' :: sec)) =
          (digitsVal hh : ℚ) * 3600 + (digitsVal m : ℚ) * 60 + sv) ∧
    (∀ d rest, pyIsdigit d = true → countChar '-' rest = 0 →
        (rest.all fun c => !pySpace c) = true →
        parse_cpu_time (d ++ '-' :: rest) =
          (digitsVal d : ℚ) * 86400 + parse_cpu_time rest) ∧
    (∀ s, cpuTimeWellFormed s = false → parse_cpu_time s = 0) := by
  refine ⟨⟨?_, ?_, ?_, ?_⟩, ?_, ?_, ?_, ?_, ?_⟩
  · simp +decide [parse_cpu_time, parseColonTime, pyStrip, pySpace, countChar,
      splitFirst, splitOnChar, pyInt, pyFloat, pyFloatCore, pyIsdigit, digitsVal]
    norm_num
  · simp +decide [parse_cpu_time, parseColonTime, pyStrip, pySpace, countChar,
      splitFirst, splitOnChar, pyInt, pyFloat, pyFloatCore, pyIsdigit, digitsVal]
    norm_num
  · simp +decide [parse_cpu_time, parseColonTime, pyStrip, pySpace, countChar,
      splitFirst, splitOnChar, pyInt, pyFloat, pyFloatCore, pyIsdigit, digitsVal]
    norm_num
  · simp +decide [parse_cpu_time, parseColonTime, pyStrip, pySpace, countChar,
      splitFirst, splitOnChar, pyInt, pyFloat, pyFloatCore, pyIsdigit, digitsVal]
  · exact fun s v hs hf => parse_cpu_time_plain hs hf
  · exact fun m sec sv hm hsec hf => parse_cpu_time_mmss hm hsec hf
  · exact fun hh m sec sv hhh hm hsec hf => parse_cpu_time_hhmmss hhh hm hsec hf
  · exact fun d rest hd hrest hnsp => parse_cpu_time_day hd hrest hnsp
  · exact fun s h => parse_cpu_time_malformed h

/-- Witness for C1: the format rules and the malformed-input rule applied at
concrete inputs — `"7:30"`, `"1:02:03"`, `"3-1:00:00"` and `"garbage"`. -/
theorem C1_parse_cpu_time_correct_witness :
    parse_cpu_time "7:30".data = 450 ∧
    parse_cpu_time "1:02:03".data = 3723 ∧
    parse_cpu_time ("3".data ++ '-' :: "0:10".data) =
      3 * 86400 + parse_cpu_time "0:10".data ∧
    parse_cpu_time "garbage".data = 0 := by
  refine ⟨?_, ?_, ?_, ?_⟩
  · have h := C1_parse_cpu_time_correct.2.2.1 "7".data "30".data 30
      (by decide) (by decide)
      (by simp +decide [pyFloat, pyFloatCore, pyStrip, pySpace, splitFirst,
            pyIsdigit, digitsVal])
    have h2 : parse_cpu_time "7:30".data = 7 * 60 + 30 := by
      simpa [digitsVal] using h
    exact h2.trans (by norm_num)
  · have h := C1_parse_cpu_time_correct.2.2.2.1 "1".data "02".data "03".data 3
      (by decide) (by decide) (by decide)
      (by simp +decide [pyFloat, pyFloatCore, pyStrip, pySpace, splitFirst,
            pyIsdigit, digitsVal])
    have h2 : parse_cpu_time "1:02:03".data = 3600 + 2 * 60 + 3 := by
      simpa [digitsVal] using h
    exact h2.trans (by norm_num)
  · have h := C1_parse_cpu_time_correct.2.2.2.2.1 "3".data "0:10".data
      (by decide) (by decide) (by decide)
    simpa [digitsVal] using h
  · exact C1_parse_cpu_time_correct.2.2.2.2.2 "garbage".data (by decide)

/-! ## `calculate_reduction_percentage` -/

/-- Result of `calculate_reduction_percentage`: either the Python float
`float('inf')` or a finite value. -/
inductive PctResult where
  | inf : PctResult
  | val : ℚ → PctResult
deriving DecidableEq

/-- `calculate_reduction_percentage`: both zero → `0.0`; baseline
(`stats_value`) zero with nonzero comparand → `inf`; comparand
(`mac_stats_value`) zero → `100.0`; smaller comparand → the reduction
percentage; otherwise the increase percentage, negated. -/
def calculate_reduction_percentage (mac_stats_value stats_value : ℚ) : PctResult :=
  if stats_value = 0 then
    if mac_stats_value = 0 then .val 0 else .inf
  else if mac_stats_value = 0 then .val 100
  else if mac_stats_value < stats_value then
    .val ((stats_value - mac_stats_value) / stats_value * 100)
  else
    .val (-((mac_stats_value - stats_value) / stats_value * 100))

/-- C2: for non-negative inputs, `calculate_reduction_percentage` follows the
spec's case analysis — both zero → 0; `stats = 0 ≠ mac` → `+inf`;
`mac = 0 ≠ stats` → 100; `mac < stats` → `(stats-mac)/stats·100`; otherwise
the negated increase — and matches the five fixed vectors. -/
theorem C2_calculate_reduction_percentage_correct :
    (calculate_reduction_percentage 0 0 = .val 0 ∧
     calculate_reduction_percentage 5 0 = .inf ∧
     calculate_reduction_percentage 0 5 = .val 100 ∧
     calculate_reduction_percentage 3 6 = .val 50 ∧
     calculate_reduction_percentage 9 6 = .val (-50)) ∧
    (∀ mac stats : ℚ, 0 ≤ mac → 0 ≤ stats →
      (mac = 0 → stats = 0 → calculate_reduction_percentage mac stats = .val 0) ∧
      (mac ≠ 0 → stats = 0 → calculate_reduction_percentage mac stats = .inf) ∧
      (mac = 0 → stats ≠ 0 → calculate_reduction_percentage mac stats = .val 100) ∧
      (mac < stats →
        calculate_reduction_percentage mac stats =
          .val ((stats - mac) / stats * 100)) ∧
      (stats ≤ mac → stats ≠ 0 →
        calculate_reduction_percentage mac stats =
          .val (-((mac - stats) / stats * 100)))) := by
  constructor
  · refine ⟨?_, ?_, ?_, ?_, ?_⟩ <;>
      (unfold calculate_reduction_percentage; norm_num)
  · intro mac stats hmac hstats
    refine ⟨?_, ?_, ?_, ?_, ?_⟩
    · intro h1 h2; subst h1; subst h2
      unfold calculate_reduction_percentage; norm_num
    · intro h1 h2; subst h2
      unfold calculate_reduction_percentage
      rw [if_pos rfl, if_neg h1]
    · intro h1 h2; subst h1
      unfold calculate_reduction_percentage
      rw [if_neg h2, if_pos rfl]
    · intro h1
      have hs : stats ≠ 0 := by
        intro he; subst he
        exact absurd (lt_of_le_of_lt hmac h1) (lt_irrefl 0)
      unfold calculate_reduction_percentage
      rw [if_neg hs]
      by_cases hm : mac = 0
      · subst hm
        rw [if_pos rfl]
        have : (stats - 0) / stats * 100 = 100 := by
          field_simp
        rw [this]
      · rw [if_neg hm, if_pos h1]
    · intro h1 h2
      unfold calculate_reduction_percentage
      rw [if_neg h2]
      have hm : mac ≠ 0 := by
        intro he; subst he
        exact h2 (le_antisymm (by simpa using h1) hstats)
      rw [if_neg hm, if_neg (not_lt.mpr h1)]

/-- Witness for C2: the case rules applied at the concrete vectors. -/
theorem C2_calculate_reduction_percentage_correct_witness :
    calculate_reduction_percentage 3 6 = .val 50 ∧
    calculate_reduction_percentage 9 6 = .val (-50) ∧
    calculate_reduction_percentage 5 0 = .inf := by
  have hlt := (C2_calculate_reduction_percentage_correct.2 3 6
    (by norm_num) (by norm_num)).2.2.2.1 (by norm_num)
  have hge := (C2_calculate_reduction_percentage_correct.2 9 6
    (by norm_num) (by norm_num)).2.2.2.2 (by norm_num) (by norm_num)
  have hinf := (C2_calculate_reduction_percentage_correct.2 5 0
    (by norm_num) (by norm_num)).2.1 (by norm_num) rfl
  refine ⟨hlt.trans (by norm_num), hge.trans (by norm_num), hinf⟩

/-! ## Process attribution (spec §4.1) -/

/-- Python's substring test `pat in s`. -/
def containsSub (s pat : List Char) : Bool :=
  match s with
  | [] => pat.isEmpty
  | _ :: rest => pat.isPrefixOf s || containsSub rest pat

/-- A process as seen by attribution: display name and command line. -/
structure ProcInfo where
  name : List Char
  cmd : List Char

/-- Modelled from the spec: the inclusion/exclusion attribution filter of
spec §4.1 is not present under `src` — `find_processes_by_pattern` in
`monitor_cpu_comparison.py` only forwards a single pattern to `pgrep` and
parses its output, with no curated exclusion list.  Following the spec's
words: a process is attributed to the application when its display name or
command line contains an inclusion substring, with a curated exclusion list
suppressing known false positives, exclusion taking precedence over
inclusion. -/
def attributionAccepts (inclusions exclusions : List (List Char))
    (p : ProcInfo) : Bool :=
  if exclusions.any (fun e => containsSub p.cmd e) then
    false
  else
    inclusions.any (fun i => containsSub p.cmd i || containsSub p.name i)

/-- C3: a process whose command line contains a known exclusion substring is
always rejected, even when an inclusion substring also matches — exclusion
takes precedence over inclusion. -/
theorem C3_exclusion_takes_precedence
    (inclusions exclusions : List (List Char)) (p : ProcInfo)
    (e : List Char) (he : e ∈ exclusions)
    (hmatch : containsSub p.cmd e = true) :
    attributionAccepts inclusions exclusions p = false := by
  unfold attributionAccepts
  rw [if_pos (List.any_eq_true.mpr ⟨e, he, hmatch⟩)]

/-- Witness for C3: a command line matching both the inclusion term
`"mac_stats"` and the exclusion term `"Visual Studio Code"` is rejected. -/
theorem C3_exclusion_takes_precedence_witness :
    containsSub "/Applications/Visual Studio Code.app mac_stats".data
      "mac_stats".data = true ∧
    attributionAccepts ["mac_stats".data]
      ["Visual Studio Code".data]
      ⟨"Code Helper".data,
        "/Applications/Visual Studio Code.app mac_stats".data⟩ = false :=
  ⟨by decide,
   C3_exclusion_takes_precedence _ _ _ "Visual Studio Code".data
     (by decide) (by decide)⟩

/-! ## `get_process_children` / `get_all_related_pids` -/

/-- The `pgrep -P`-reported child relation is abstracted as a function from
a parent PID to the list of its children. -/
def ChildRel : Type := ℕ → List ℕ

/-- The recursive traversal of `get_process_children`: process a worklist of
children of the current process; a PID not yet in `seen` is added to `seen`,
appended to the output, and its own children are traversed recursively
(depth-first, with the single mutable `seen` set threaded through).  `fuel`
bounds the recursion depth (the Python source recurses without bound; every
theorem below holds for every fuel value). -/
def goChildren (children : ChildRel) : ℕ → List ℕ → List ℕ → List ℕ × List ℕ
  | _, [], seen => ([], seen)
  | 0, p :: ps, seen =>
    if p ∈ seen then goChildren children 0 ps seen
    else
      let r := goChildren children 0 ps (p :: seen)
      (p :: r.1, r.2)
  | fuel + 1, p :: ps, seen =>
    if p ∈ seen then goChildren children (fuel + 1) ps seen
    else
      let sub := goChildren children fuel (children p) (p :: seen)
      let rest := goChildren children (fuel + 1) ps sub.2
      (p :: (sub.1 ++ rest.1), rest.2)
termination_by fuel ps => (fuel, ps.length)

/-- `get_process_children parent` with a fresh empty `seen` set. -/
def get_process_children (children : ChildRel) (fuel : ℕ) (parent : ℕ) :
    List ℕ :=
  (goChildren children fuel (children parent) []).1

/-- `get_all_related_pids`: the main PID followed by all recursively found
child PIDs. -/
def get_all_related_pids (children : ChildRel) (fuel : ℕ) (main : ℕ) :
    List ℕ :=
  main :: get_process_children children fuel main

/-- Invariant of the traversal: the output is duplicate-free, disjoint from
the incoming `seen` set, the outgoing `seen` set is the union of the two,
and every output PID is reachable from some worklist PID. -/
theorem goChildren_invariant (children : ChildRel) :
    ∀ (fuel : ℕ) (ps seen : List ℕ),
      (goChildren children fuel ps seen).1.Nodup ∧
      (∀ x ∈ (goChildren children fuel ps seen).1, x ∉ seen) ∧
      (∀ x, x ∈ (goChildren children fuel ps seen).2 ↔
        x ∈ (goChildren children fuel ps seen).1 ∨ x ∈ seen) ∧
      (∀ x ∈ (goChildren children fuel ps seen).1, ∃ r ∈ ps,
        Relation.ReflTransGen (fun a b => b ∈ children a) r x) := by
  intro fuel
  induction fuel with
  | zero =>
    intro ps
    induction ps with
    | nil =>
      intro seen
      refine ⟨by simp [goChildren], by simp [goChildren], ?_, by simp [goChildren]⟩
      intro x; simp [goChildren]
    | cons p ps ih =>
      intro seen
      by_cases hp : p ∈ seen
      · rw [show goChildren children 0 (p :: ps) seen =
              goChildren children 0 ps seen by
            rw [goChildren]; rw [if_pos hp]]
        obtain ⟨h1, h2, h3, h4⟩ := ih seen
        exact ⟨h1, h2, h3, fun x hx => by
          obtain ⟨r, hr, hrt⟩ := h4 x hx
          exact ⟨r, by simp [hr], hrt⟩⟩
      · rw [show goChildren children 0 (p :: ps) seen =
              ((p :: (goChildren children 0 ps (p :: seen)).1),
               (goChildren children 0 ps (p :: seen)).2) by
            rw [goChildren]; rw [if_neg hp]]
        obtain ⟨h1, h2, h3, h4⟩ := ih (p :: seen)
        refine ⟨?_, ?_, ?_, ?_⟩
        · refine List.nodup_cons.mpr ⟨?_, h1⟩
          intro hmem
          exact absurd (by simp : p ∈ p :: seen) (h2 p hmem)
        · intro x hx
          rcases List.mem_cons.mp hx with h | h
          · subst h; exact hp
          · intro hxs; exact (h2 x h) (by simp [hxs])
        · intro x
          rw [h3 x]
          simp only [List.mem_cons]
          tauto
        · intro x hx
          rcases List.mem_cons.mp hx with h | h
          · subst h; exact ⟨x, by simp, Relation.ReflTransGen.refl⟩
          · obtain ⟨r, hr, hrt⟩ := h4 x h
            exact ⟨r, by simp [hr], hrt⟩
  | succ fuel ihfuel =>
    intro ps
    induction ps with
    | nil =>
      intro seen
      refine ⟨by simp [goChildren], by simp [goChildren], ?_, by simp [goChildren]⟩
      intro x; simp [goChildren]
    | cons p ps ih =>
      intro seen
      by_cases hp : p ∈ seen
      · rw [show goChildren children (fuel + 1) (p :: ps) seen =
              goChildren children (fuel + 1) ps seen by
            rw [goChildren]; rw [if_pos hp]]
        obtain ⟨h1, h2, h3, h4⟩ := ih seen
        exact ⟨h1, h2, h3, fun x hx => by
          obtain ⟨r, hr, hrt⟩ := h4 x hx
          exact ⟨r, by simp [hr], hrt⟩⟩
      · have hstep : goChildren children (fuel + 1) (p :: ps) seen =
            ((p :: ((goChildren children fuel (children p) (p :: seen)).1 ++
              (goChildren children (fuel + 1) ps
                (goChildren children fuel (children p) (p :: seen)).2).1)),
             (goChildren children (fuel + 1) ps
               (goChildren children fuel (children p) (p :: seen)).2).2) := by
          rw [goChildren]; rw [if_neg hp]
        rw [hstep]
        obtain ⟨s1, s2, s3, s4⟩ := ihfuel (children p) (p :: seen)
        obtain ⟨r1, r2, r3, r4⟩ :=
          ih (goChildren children fuel (children p) (p :: seen)).2
        refine ⟨?_, ?_, ?_, ?_⟩
        · refine List.nodup_cons.mpr ⟨?_, List.Nodup.append s1 r1 ?_⟩
          · intro hmem
            rcases List.mem_append.mp hmem with h | h
            · exact (s2 p h) (by simp)
            · exact (r2 p h) ((s3 p).mpr (Or.inr (by simp)))
          · intro x hxs hxr
            exact (r2 x hxr) ((s3 x).mpr (Or.inl hxs))
        · intro x hx hxseen
          rcases List.mem_cons.mp hx with h | h
          · subst h; exact hp hxseen
          · rcases List.mem_append.mp h with h | h
            · exact (s2 x h) (by simp [hxseen])
            · exact (r2 x h) ((s3 x).mpr (Or.inr (by simp [hxseen])))
        · intro x
          rw [r3 x, s3 x]
          simp only [List.mem_cons, List.mem_append]
          tauto
        · intro x hx
          rcases List.mem_cons.mp hx with h | h
          · subst h; exact ⟨x, by simp, Relation.ReflTransGen.refl⟩
          · rcases List.mem_append.mp h with h | h
            · obtain ⟨r, hr, hrt⟩ := s4 x h
              exact ⟨p, by simp,
                Relation.ReflTransGen.head hr hrt⟩
            · obtain ⟨r, hr, hrt⟩ := r4 x h
              exact ⟨r, by simp [hr], hrt⟩

/-- C4: for every main PID and every acyclic parent-to-children relation, the
PID list produced by `get_all_related_pids` — the main PID plus the recursive
child traversal — contains no duplicate PID. -/
theorem C4_get_all_related_pids_nodup (children : ChildRel) (fuel main : ℕ)
    (hacyc : ∀ p, ¬ Relation.TransGen (fun a b => b ∈ children a) p p) :
    (get_all_related_pids children fuel main).Nodup := by
  obtain ⟨h1, _, _, h4⟩ :=
    goChildren_invariant children fuel (children main) []
  refine List.nodup_cons.mpr ⟨?_, h1⟩
  intro hmem
  obtain ⟨r, hr, hrt⟩ := h4 main hmem
  exact hacyc main (Relation.TransGen.head' hr hrt)

/-- Witness for C4: a concrete three-level process tree (1 → 2,3; 2 → 4) is
acyclic and yields the duplicate-free PID list `[1, 2, 4, 3]`. -/
theorem C4_get_all_related_pids_nodup_witness :
    get_all_related_pids
      (fun p => if p = 1 then [2, 3] else if p = 2 then [4] else [])
      5 1 = [1, 2, 4, 3] ∧
    (get_all_related_pids
      (fun p => if p = 1 then [2, 3] else if p = 2 then [4] else [])
      5 1).Nodup := by
  have hacyc : ∀ p, ¬ Relation.TransGen
      (fun a b => b ∈ (if a = 1 then [2, 3] else if a = 2 then [4] else [])) p p := by
    have hstep : ∀ a b : ℕ,
        b ∈ (if a = 1 then [2, 3] else if a = 2 then [4] else []) → a < b := by
      intro a b hb
      by_cases h1 : a = 1
      · subst h1; simp at hb; omega
      · by_cases h2 : a = 2
        · subst h2; simp [h1] at hb; omega
        · simp [h1, h2] at hb
    intro p hp
    have hlt : ∀ a b : ℕ, Relation.TransGen
        (fun a b => b ∈ (if a = 1 then [2, 3] else if a = 2 then [4] else [])) a b →
        a < b := by
      intro a b h
      induction h with
      | single h => exact hstep _ _ h
      | tail _ h ih => exact lt_trans ih (hstep _ _ h)
    exact absurd (hlt p p hp) (lt_irrefl p)
  refine ⟨?_, C4_get_all_related_pids_nodup
      (fun p => if p = 1 then [2, 3] else if p = 2 then [4] else []) 5 1 hacyc⟩
  simp [get_all_related_pids, get_process_children, goChildren]

/-! ## Command-line argument parsing (`main`, lines 572–603) -/

/-- The configuration accumulated by `main`'s argument loop. -/
structure Config where
  duration : ℤ
  interval : ℚ
  warmup : ℤ
  auto_kill : Bool
  keep_running : Option Bool
  debug : Bool
deriving DecidableEq

/-- The defaults: `duration = 60`, `interval = 1.0`, `warmup = 30`. -/
def defaultConfig : Config :=
  ⟨60, 1, 30, false, none, false⟩

/-- The numeric-argument test of `main`:
`arg.isdigit() or ('.' in arg and arg.replace('.', '').isdigit())`. -/
def isNumericArg (s : List Char) : Bool :=
  pyIsdigit s || (decide ('.' ∈ s) && pyIsdigit (s.filter (fun c => c ≠ '.')))

/-- Python `int(float_value)`: truncation toward zero. -/
def intOfFloat (q : ℚ) : ℤ :=
  if q < 0 then -(⌊-q⌋) else ⌊q⌋

/-- The argument loop of `main`: flags set their fields; a numeric argument
is assigned to `duration` while all three of duration/interval/warmup still
hold their defaults, else to `interval` while interval and warmup hold
theirs, else to `warmup`.  A numeric-looking argument that `float()` rejects
(for instance `"1.2.3"`) raises an uncaught `ValueError`, modelled as
`none`. -/
def parseArgs : List (List Char) → Config → Option Config
  | [], cfg => some cfg
  | a :: rest, cfg =>
    if a = "--auto-kill".data then
      parseArgs rest { cfg with auto_kill := true }
    else if a = "--keep-running".data then
      parseArgs rest { cfg with keep_running := some true }
    else if a = "--kill-after".data then
      parseArgs rest { cfg with keep_running := some false }
    else if a = "--debug".data then
      parseArgs rest { cfg with debug := true }
    else if isNumericArg a then
      match pyFloat a with
      | none => none
      | some v =>
        if cfg.duration = 60 ∧ cfg.interval = 1 ∧ cfg.warmup = 30 then
          parseArgs rest { cfg with duration := intOfFloat v }
        else if cfg.interval = 1 ∧ cfg.warmup = 30 then
          parseArgs rest { cfg with interval := v }
        else
          parseArgs rest { cfg with warmup := intOfFloat v }
    else
      parseArgs rest cfg

/-- `main`'s argument parsing starts from the defaults. -/
def mainParseArgs (args : List (List Char)) : Option Config :=
  parseArgs args defaultConfig

/-- Counterexample to C5: with arguments `60 5` the second numeric argument
does not become the interval — because the first one set `duration` to its
default value 60, the dispatch condition still sees all defaults and the `5`
overwrites `duration`, leaving `interval = 1`.  The claim's "regardless of
the numeric values passed" fails. -/
theorem C5_positional_args_counterexample :
    mainParseArgs ["60".data, "5".data] =
      some ⟨5, 1, 30, false, none, false⟩ ∧ (1 : ℚ) ≠ 5 := by
  constructor
  · simp +decide [mainParseArgs, parseArgs, defaultConfig, isNumericArg,
      pyIsdigit, pyFloat, pyFloatCore, pyStrip, pySpace, splitFirst,
      digitsVal, intOfFloat]
  · norm_num

/-- One step of the argument loop on a numeric argument: dispatch on which
of duration/interval/warmup still hold their default values. -/
theorem parseArgs_numeric_cons {a : List Char} {v : ℚ} (rest : List (List Char))
    (cfg : Config) (hn : isNumericArg a = true) (hf : pyFloat a = some v) :
    parseArgs (a :: rest) cfg =
      if cfg.duration = 60 ∧ cfg.interval = 1 ∧ cfg.warmup = 30 then
        parseArgs rest { cfg with duration := intOfFloat v }
      else if cfg.interval = 1 ∧ cfg.warmup = 30 then
        parseArgs rest { cfg with interval := v }
      else
        parseArgs rest { cfg with warmup := intOfFloat v } := by
  rw [parseArgs]
  rw [if_neg (by intro he; rw [he] at hn; exact absurd hn (by decide))]
  rw [if_neg (by intro he; rw [he] at hn; exact absurd hn (by decide))]
  rw [if_neg (by intro he; rw [he] at hn; exact absurd hn (by decide))]
  rw [if_neg (by intro he; rw [he] at hn; exact absurd hn (by decide))]
  rw [if_pos hn, hf]

/-- C5 (amended): with no numeric arguments the defaults 60/1/30 apply, and
the first numeric argument always sets `duration`; but the dispatch of later
numeric arguments depends on the values: the second sets `interval` and the
third sets `warmup` only when the earlier assignments moved their fields off
the default values (first value ≠ 60 after truncation, second value ≠ 1). -/
theorem C5_positional_args_amended :
    (mainParseArgs [] = some defaultConfig) ∧
    (∀ a va, isNumericArg a = true → pyFloat a = some va →
      mainParseArgs [a] = some ⟨intOfFloat va, 1, 30, false, none, false⟩) ∧
    (∀ a b c va vb vc, isNumericArg a = true → pyFloat a = some va →
      isNumericArg b = true → pyFloat b = some vb →
      isNumericArg c = true → pyFloat c = some vc →
      intOfFloat va ≠ 60 → vb ≠ 1 →
      mainParseArgs [a, b, c] =
        some ⟨intOfFloat va, vb, intOfFloat vc, false, none, false⟩) := by
  refine ⟨rfl, ?_, ?_⟩
  · intro a va hna hfa
    unfold mainParseArgs
    rw [parseArgs_numeric_cons [] defaultConfig hna hfa]
    rw [if_pos ⟨rfl, rfl, rfl⟩]
    rfl
  · intro a b c va vb vc hna hfa hnb hfb hnc hfc hd hi
    unfold mainParseArgs
    rw [parseArgs_numeric_cons [b, c] defaultConfig hna hfa]
    rw [if_pos ⟨rfl, rfl, rfl⟩]
    rw [parseArgs_numeric_cons [c] _ hnb hfb]
    rw [if_neg (by intro hcon; exact hd hcon.1)]
    rw [if_pos ⟨rfl, rfl⟩]
    rw [parseArgs_numeric_cons [] _ hnc hfc]
    rw [if_neg (by intro hcon; exact hd hcon.1)]
    rw [if_neg (by intro hcon; exact hi hcon.1)]
    rfl

/-- Witness for C5 (amended): arguments `10 0.5 5` yield duration 10,
interval 0.5, warmup 5. -/
theorem C5_positional_args_amended_witness :
    mainParseArgs ["10".data, "0.5".data, "5".data] =
      some ⟨10, 1 / 2, 5, false, none, false⟩ := by
  have h := C5_positional_args_amended.2.2 "10".data "0.5".data "5".data
    10 (1 / 2) 5
    (by decide)
    (by simp +decide [pyFloat, pyFloatCore, pyStrip, pySpace, splitFirst,
          pyIsdigit, digitsVal])
    (by decide)
    (by simp +decide [pyFloat, pyFloatCore, pyStrip, pySpace, splitFirst,
          pyIsdigit, digitsVal]; norm_num)
    (by decide)
    (by simp +decide [pyFloat, pyFloatCore, pyStrip, pySpace, splitFirst,
          pyIsdigit, digitsVal])
    (by simp +decide [intOfFloat])
    (by norm_num)
  simpa [intOfFloat] using h

/-! ## `save_csv` -/

/-- The per-application metrics of one sample, as read by `save_csv` and the
report generator (`cpu`, `cpu_time_delta`, `process_count`; the remaining
fields of the metrics dict — rss, mem, total cpu time, pid list — are not
read by any claim under verification). -/
structure Metrics where
  cpu : ℚ
  cpu_time_delta : ℚ
  process_count : ℕ
deriving DecidableEq

/-- One entry of the `data` list built by the sampling loop. -/
structure SampleEntry where
  timestamp : List Char
  mac_stats : Metrics
  stats : Metrics
deriving DecidableEq

/-- The digit character for `k % 10`. -/
def digitChar (k : ℕ) : Char :=
  Char.ofNat (48 + k % 10)

/-- Decimal digits of `n`, most significant first (`fuel`-driven helper). -/
def natDigitsAux : ℕ → ℕ → List Char
  | 0, _ => []
  | fuel + 1, n => if n = 0 then [] else natDigitsAux fuel (n / 10) ++ [digitChar n]

/-- Decimal rendering of a natural number, as Python's `str`/`format`. -/
def natDigits (n : ℕ) : List Char :=
  if n = 0 then ['0'] else natDigitsAux n n

/-- Round to the nearest integer, ties to even — the rounding Python's
`format(x, '.2f')` applies to the scaled value. -/
def roundHalfEven (q : ℚ) : ℤ :=
  let f := ⌊q⌋
  let r := q - f
  if r < 1 / 2 then f
  else if 1 / 2 < r then f + 1
  else if f % 2 = 0 then f else f + 1

/-- Python `f"{x:.2f}"`: the value rounded to hundredths, rendered with a
sign, the integer digits, a point and exactly two fractional digits. -/
def formatF2 (q : ℚ) : List Char :=
  let n := roundHalfEven (q * 100)
  let m := n.natAbs
  (if n < 0 then ['-'] else []) ++
    natDigits (m / 100) ++ '.' :: [digitChar (m / 10), digitChar m]

/-- The fixed CSV header row written by `save_csv`. -/
def csvHeader : List Char :=
  ("timestamp,mac_stats_cpu_time_delta,mac_stats_cpu_percent,mac_stats_procs," ++
   "stats_cpu_time_delta,stats_cpu_percent,stats_procs,reduction_percent").data

/-- The reduction field of a CSV row: the literal string `inf` when the
reduction is infinite, otherwise the value to two decimal places. -/
def reductionField (mac stats : ℚ) : List Char :=
  match calculate_reduction_percentage mac stats with
  | .inf => "inf".data
  | .val q => formatF2 q

/-- One data row of the CSV: timestamp, the two applications' CPU-time
deltas and CPU percentages to two decimals, their process counts, and the
reduction field, comma-separated. -/
def entryRow (e : SampleEntry) : List Char :=
  e.timestamp ++ ',' ::
    (formatF2 e.mac_stats.cpu_time_delta ++ ',' ::
      (formatF2 e.mac_stats.cpu ++ ',' ::
        (natDigits e.mac_stats.process_count ++ ',' ::
          (formatF2 e.stats.cpu_time_delta ++ ',' ::
            (formatF2 e.stats.cpu ++ ',' ::
              (natDigits e.stats.process_count ++ ',' ::
                reductionField e.mac_stats.cpu_time_delta
                  e.stats.cpu_time_delta))))))

/-- `save_csv`: the header row followed by one row per collected sample, in
order. -/
def save_csv_lines (data : List SampleEntry) : List (List Char) :=
  csvHeader :: data.map entryRow

theorem digitChar_isDigit (k : ℕ) : (digitChar k).isDigit = true := by
  have h : k % 10 < 10 := Nat.mod_lt _ (by omega)
  unfold digitChar
  interval_cases h2 : k % 10 <;> decide

theorem digitChar_ne_dot (k : ℕ) : digitChar k ≠ '.' := by
  intro he
  have := digitChar_isDigit k
  rw [he] at this
  exact absurd this (by decide)

theorem natDigitsAux_digits {fuel n : ℕ} :
    ∀ c ∈ natDigitsAux fuel n, c.isDigit = true := by
  induction fuel generalizing n with
  | zero => intro c hc; simp [natDigitsAux] at hc
  | succ fuel ih =>
    intro c hc
    unfold natDigitsAux at hc
    by_cases hn : n = 0
    · simp [hn] at hc
    · rw [if_neg hn] at hc
      rcases List.mem_append.mp hc with h | h
      · exact ih c h
      · have : c = digitChar n := by simpa using h
        subst this
        exact digitChar_isDigit n

theorem natDigits_digits {n : ℕ} : ∀ c ∈ natDigits n, c.isDigit = true := by
  intro c hc
  unfold natDigits at hc
  by_cases hn : n = 0
  · rw [if_pos hn] at hc
    have : c = '0' := by simpa using hc
    subst this; decide
  · rw [if_neg hn] at hc
    exact natDigitsAux_digits c hc

/-- Every two-decimal rendering ends in a point followed by exactly two
digit characters, and the part before the point contains no point. -/
theorem formatF2_shape (q : ℚ) :
    ∃ pre d1 d2, formatF2 q = pre ++ '.' :: [d1, d2] ∧
      d1.isDigit = true ∧ d2.isDigit = true ∧ '.' ∉ pre := by
  refine ⟨(if roundHalfEven (q * 100) < 0 then ['-'] else []) ++
    natDigits ((roundHalfEven (q * 100)).natAbs / 100),
    digitChar ((roundHalfEven (q * 100)).natAbs / 10),
    digitChar (roundHalfEven (q * 100)).natAbs, ?_, digitChar_isDigit _,
    digitChar_isDigit _, ?_⟩
  · unfold formatF2
    simp
  · intro hmem
    rcases List.mem_append.mp hmem with h | h
    · by_cases hneg : roundHalfEven (q * 100) < 0
      · rw [if_pos hneg] at h
        simp at h
      · rw [if_neg hneg] at h
        simp at h
    · have := natDigits_digits '.' h
      exact absurd this (by decide)

theorem formatF2_ne_inf (q : ℚ) : formatF2 q ≠ "inf".data := by
  obtain ⟨pre, d1, d2, heq, _, _, _⟩ := formatF2_shape q
  rw [heq]
  intro hcon
  have hdot : '.' ∈ pre ++ '.' :: [d1, d2] := by simp
  rw [hcon] at hdot
  exact absurd hdot (by decide)

/-- The reduction is infinite exactly when the Stats delta is zero and the
mac_stats delta is not. -/
theorem calc_inf_iff (mac stats : ℚ) :
    calculate_reduction_percentage mac stats = .inf ↔
      stats = 0 ∧ mac ≠ 0 := by
  unfold calculate_reduction_percentage
  by_cases hs : stats = 0
  · rw [if_pos hs]
    by_cases hm : mac = 0
    · rw [if_pos hm]; simp [hs, hm]
    · rw [if_neg hm]; simp [hs, hm]
  · rw [if_neg hs]
    by_cases hm : mac = 0
    · rw [if_pos hm]; simp [hs]
    · rw [if_neg hm]
      by_cases hlt : mac < stats
      · rw [if_pos hlt]; simp [hs]
      · rw [if_neg hlt]; simp [hs]

theorem takeWhile_append_comma {a b : List Char}
    (h : countChar ',' a = 0) :
    (a ++ ',' :: b).takeWhile (fun c => c != ',') = a := by
  induction a with
  | nil => simp [List.takeWhile]
  | cons x xs ih =>
    simp [countChar] at h
    obtain ⟨h1, h2⟩ := h
    simp only [List.cons_append, List.takeWhile_cons]
    rw [if_pos (by simp [h1])]
    rw [ih h2]

/-- The timestamp field of an emitted row is the sample's timestamp. -/
theorem entryRow_timestamp {e : SampleEntry}
    (h : countChar ',' e.timestamp = 0) :
    (entryRow e).takeWhile (fun c => c != ',') = e.timestamp := by
  unfold entryRow
  exact takeWhile_append_comma h

/-- C6: `save_csv` emits exactly one fixed header row followed by exactly
one row per collected sample, in poll order (so the emitted timestamp
fields are the collected timestamps in order, and any monotonicity of the
collected timestamps transfers to the rows); the numeric fields are
two-decimal renderings, and the reduction field is the string `inf` exactly
when the Stats CPU-time delta is zero while the mac_stats delta is not. -/
theorem C6_save_csv_correct :
    (∀ data : List SampleEntry,
      (save_csv_lines data).length = data.length + 1) ∧
    (∀ data : List SampleEntry,
      (save_csv_lines data).head? = some csvHeader) ∧
    (∀ (data : List SampleEntry) (i : ℕ),
      (save_csv_lines data)[i + 1]? = (data[i]?).map entryRow) ∧
    (∀ data : List SampleEntry,
      (∀ e ∈ data, countChar ',' e.timestamp = 0) →
      ((save_csv_lines data).drop 1).map
          (fun r => r.takeWhile (fun c => c != ',')) =
        data.map SampleEntry.timestamp) ∧
    (∀ (le : List Char → List Char → Prop) (data : List SampleEntry),
      (∀ e ∈ data, countChar ',' e.timestamp = 0) →
      List.Chain' le (data.map SampleEntry.timestamp) →
      List.Chain' le (((save_csv_lines data).drop 1).map
        (fun r => r.takeWhile (fun c => c != ',')))) ∧
    (∀ q, ∃ pre d1 d2, formatF2 q = pre ++ '.' :: [d1, d2] ∧
      d1.isDigit = true ∧ d2.isDigit = true) ∧
    (∀ e : SampleEntry,
      reductionField e.mac_stats.cpu_time_delta e.stats.cpu_time_delta =
        "inf".data ↔
      (e.stats.cpu_time_delta = 0 ∧ e.mac_stats.cpu_time_delta ≠ 0)) := by
  have hmap : ∀ data : List SampleEntry,
      (∀ e ∈ data, countChar ',' e.timestamp = 0) →
      ((save_csv_lines data).drop 1).map
          (fun r => r.takeWhile (fun c => c != ',')) =
        data.map SampleEntry.timestamp := by
    intro data hts
    unfold save_csv_lines
    rw [List.drop_one, List.tail_cons, List.map_map]
    refine List.map_congr_left ?_
    intro e he
    exact entryRow_timestamp (hts e he)
  refine ⟨?_, ?_, ?_, hmap, ?_, ?_, ?_⟩
  · intro data; simp [save_csv_lines]
  · intro data; simp [save_csv_lines]
  · intro data i; simp [save_csv_lines]
  · intro le data hts hchain
    rw [hmap data hts]
    exact hchain
  · intro q
    obtain ⟨pre, d1, d2, heq, h1, h2, _⟩ := formatF2_shape q
    exact ⟨pre, d1, d2, heq, h1, h2⟩
  · intro e
    unfold reductionField
    constructor
    · intro h
      cases hc : calculate_reduction_percentage e.mac_stats.cpu_time_delta
          e.stats.cpu_time_delta with
      | inf => exact (calc_inf_iff _ _).mp hc
      | val q =>
        rw [hc] at h
        exact absurd h (formatF2_ne_inf q)
    · intro h
      rw [(calc_inf_iff _ _).mpr h]

/-- Witness for C6: the timestamp-projection and monotonicity-transfer
clauses applied to a concrete two-sample run. -/
theorem C6_save_csv_correct_witness :
    (((save_csv_lines
        [⟨"12:00:00".data, ⟨2, 3 / 2, 1⟩, ⟨4, 3, 2⟩⟩,
         ⟨"12:00:01".data, ⟨2, 1, 1⟩, ⟨4, 0, 2⟩⟩]).drop 1).map
      (fun r => r.takeWhile (fun c => c != ','))) =
      ["12:00:00".data, "12:00:01".data] := by
  have h := C6_save_csv_correct.2.2.2.1
    [⟨"12:00:00".data, ⟨2, 3 / 2, 1⟩, ⟨4, 3, 2⟩⟩,
     ⟨"12:00:01".data, ⟨2, 1, 1⟩, ⟨4, 0, 2⟩⟩]
    (by decide)
  simpa using h

/-! ## The sampling loop, interruption and report generation
(`main`, lines 744–790) -/

/-- How the sampling loop ends.  Each iteration builds one complete entry
(from `get_total_cpu_metrics`) and then appends it to `data` in a single
step, so a `KeyboardInterrupt` either lands while sample `i` is still being
built (before the append — the partial sample is discarded, `data` holds
samples `0..i-1`) or after sample `i` was appended (during the status print
or the sleep — `data` holds samples `0..i`); with no interrupt the loop runs
until the duration budget is exhausted after `polls` complete iterations.
The `except KeyboardInterrupt` around the loop catches the interrupt and
falls through to the report phase. -/
inductive LoopEnd where
  | ranToEnd (polls : ℕ)
  | interruptedDuringSampling (i : ℕ)
  | interruptedAfterAppend (i : ℕ)

/-- Whether the loop ended by a keyboard interrupt. -/
def LoopEnd.isInterrupt : LoopEnd → Prop
  | .ranToEnd _ => False
  | .interruptedDuringSampling _ => True
  | .interruptedAfterAppend _ => True

/-- The `data` list as it stands when the loop ends, given the stream of
samples the polls would produce. -/
def collectedSamples (stream : ℕ → SampleEntry) : LoopEnd → List SampleEntry
  | .ranToEnd n => (List.range n).map stream
  | .interruptedDuringSampling i => (List.range i).map stream
  | .interruptedAfterAppend i => (List.range (i + 1)).map stream

/-- The fields of the text report that depend on the collected data: the
sample count and the final entry's CPU-time deltas (`data[-1]`). -/
structure ReportSummary where
  totalSamples : ℕ
  final_mac_delta : ℚ
  final_stats_delta : ℚ
deriving DecidableEq

/-- The report phase of `main`: with no collected data it prints
`✗ No data collected` and returns — no text report and no CSV file are
written (modelled as `none`); otherwise it writes the text report (whose
data-dependent fields come from `data[-1]` and `len(data)`) and the CSV. -/
def reportPhase (data : List SampleEntry) :
    Option (ReportSummary × List (List Char)) :=
  match data.getLast? with
  | none => none
  | some last =>
    some (⟨data.length, last.mac_stats.cpu_time_delta,
           last.stats.cpu_time_delta⟩,
          save_csv_lines data)

/-- The whole post-loop behaviour for a given loop ending. -/
def programReports (stream : ℕ → SampleEntry) (e : LoopEnd) :
    Option (ReportSummary × List (List Char)) :=
  reportPhase (collectedSamples stream e)

theorem range_map_getLast? {α : Type} (f : ℕ → α) (n : ℕ) :
    ((List.range (n + 1)).map f).getLast? = some (f n) := by
  rw [List.range_succ, List.map_append]
  simp

/-- Counterexample to C7: a keyboard interrupt during the very first
sampling step leaves `data` empty, and the program prints
`✗ No data collected` and returns — no text report and no CSV are
produced, contradicting the claim for this interrupt. -/
theorem C7_interrupt_report_counterexample :
    (LoopEnd.interruptedDuringSampling 0).isInterrupt ∧
    programReports (fun _ => ⟨"12:00:00".data, ⟨0, 0, 1⟩, ⟨0, 0, 1⟩⟩)
      (.interruptedDuringSampling 0) = none := by
  constructor
  · trivial
  · rfl

/-- C7 (amended): if a keyboard interrupt occurs during the sampling loop
and at least one sample had already been collected, the program proceeds to
report generation and produces the report and CSV reflecting exactly the
already-collected samples — a prefix of the sample stream with no partial
entry (an interrupt mid-build discards only the unfinished sample) and no
collected sample discarded; with zero collected samples no report is
produced (see C10). -/
theorem C7_interrupt_report_amended :
    ∀ (stream : ℕ → SampleEntry) (e : LoopEnd), e.isInterrupt →
      collectedSamples stream e ≠ [] →
      (∃ k, collectedSamples stream e = (List.range k).map stream ∧
        programReports stream e =
          some (⟨k, (stream (k - 1)).mac_stats.cpu_time_delta,
                 (stream (k - 1)).stats.cpu_time_delta⟩,
                save_csv_lines ((List.range k).map stream))) := by
  intro stream e hint hne
  cases e with
  | ranToEnd n => exact absurd hint (by simp [LoopEnd.isInterrupt])
  | interruptedDuringSampling i =>
    cases i with
    | zero => exact absurd rfl hne
    | succ j =>
      refine ⟨j + 1, rfl, ?_⟩
      unfold programReports reportPhase collectedSamples
      rw [range_map_getLast?]
      simp [List.length_range]
  | interruptedAfterAppend i =>
    refine ⟨i + 1, rfl, ?_⟩
    unfold programReports reportPhase collectedSamples
    rw [range_map_getLast?]
    simp [List.length_range]

/-- Witness for C7 (amended): an interrupt after the second sample was
appended reports exactly the first two samples. -/
theorem C7_interrupt_report_amended_witness :
    (LoopEnd.interruptedAfterAppend 1).isInterrupt ∧
    (∃ k, collectedSamples
        (fun i => ⟨"12:00:00".data, ⟨1, (i : ℚ), 1⟩, ⟨2, 2 * (i : ℚ), 1⟩⟩)
        (.interruptedAfterAppend 1) =
        (List.range k).map
          (fun i => ⟨"12:00:00".data, ⟨1, (i : ℚ), 1⟩, ⟨2, 2 * (i : ℚ), 1⟩⟩) ∧
      programReports
        (fun i => ⟨"12:00:00".data, ⟨1, (i : ℚ), 1⟩, ⟨2, 2 * (i : ℚ), 1⟩⟩)
        (.interruptedAfterAppend 1) =
        some (⟨k, (1 : ℚ), (2 : ℚ)⟩,
          save_csv_lines ((List.range k).map
            (fun i => ⟨"12:00:00".data, ⟨1, (i : ℚ), 1⟩, ⟨2, 2 * (i : ℚ), 1⟩⟩)))) := by
  constructor
  · trivial
  · have h := C7_interrupt_report_amended
      (fun i => ⟨"12:00:00".data, ⟨1, (i : ℚ), 1⟩, ⟨2, 2 * (i : ℚ), 1⟩⟩)
      (.interruptedAfterAppend 1) trivial (by simp [collectedSamples])
    obtain ⟨k, h1, h2⟩ := h
    refine ⟨k, h1, ?_⟩
    have hk : k = 2 := by
      have h3 := congrArg List.length h1
      simp [collectedSamples] at h3
      omega
    subst hk
    simpa using h2

/-- C10: if the sampling loop ends — by duration expiry or keyboard
interrupt — with zero collected samples, the program writes no text report
and no CSV at all: it returns before any report generation. -/
theorem C10_no_data_no_report :
    ∀ (stream : ℕ → SampleEntry) (e : LoopEnd),
      collectedSamples stream e = [] → programReports stream e = none := by
  intro stream e he
  unfold programReports reportPhase
  rw [he]
  rfl

/-- Witness for C10: a run that ends by duration expiry with zero polls
produces no report. -/
theorem C10_no_data_no_report_witness :
    collectedSamples (fun _ => ⟨"12:00:00".data, ⟨0, 0, 1⟩, ⟨0, 0, 1⟩⟩)
      (.ranToEnd 0) = [] ∧
    programReports (fun _ => ⟨"12:00:00".data, ⟨0, 0, 1⟩, ⟨0, 0, 1⟩⟩)
      (.ranToEnd 0) = none :=
  ⟨rfl, C10_no_data_no_report _ (.ranToEnd 0) rfl⟩

/-! ## `kill_existing_processes` (lines 45–89) -/

/-- The two signals the teardown path sends. -/
inductive Sig where
  | sigterm
  | sigkill
deriving DecidableEq

/-- Outcome of an `os.kill` attempt: delivered, `ProcessLookupError`
(process already dead), `PermissionError`, or another `OSError`. -/
inductive KOut where
  | ok
  | gone
  | denied
  | err
deriving DecidableEq

/-- Observable events of `kill_existing_processes`, in program order:
signal attempts, the per-PID messages, the 2-second grace sleep, the
force-kill banner and the final warning about unkillable processes. -/
inductive KEvent where
  | signal (pid : ℕ) (s : Sig)
  | reportKilled (pid : ℕ)
  | reportDenied (pid : ℕ)
  | reportErr (pid : ℕ)
  | sleep (secs : ℕ)
  | forceKillMsg (count : ℕ)
  | reportForceKilled (pid : ℕ)
  | warnUnkilled (count : ℕ)
deriving DecidableEq

/-- First loop of `kill_existing_processes`: attempt SIGTERM on every
matched process; success goes to `killed_pids` (with a message), an
already-dead process is skipped silently, a permission or other error goes
to `failed_pids` (with a message).  Returns (events, killed, failed). -/
def killPhase1 (out : ℕ → Sig → KOut) : List ℕ → List KEvent × List ℕ × List ℕ
  | [] => ([], [], [])
  | p :: ps =>
    let r := killPhase1 out ps
    match out p .sigterm with
    | .ok => (.signal p .sigterm :: .reportKilled p :: r.1, p :: r.2.1, r.2.2)
    | .gone => (.signal p .sigterm :: r.1, r.2.1, r.2.2)
    | .denied => (.signal p .sigterm :: .reportDenied p :: r.1, r.2.1, p :: r.2.2)
    | .err => (.signal p .sigterm :: .reportErr p :: r.1, r.2.1, p :: r.2.2)

/-- The force-kill loop: attempt SIGKILL on every failed PID; success is
reported and moves the PID to `killed_pids`; any failure (the bare
`except`) leaves it in `failed_pids`.  Returns (events, forceKilled,
stillFailed). -/
def killPhase3 (out : ℕ → Sig → KOut) : List ℕ → List KEvent × List ℕ × List ℕ
  | [] => ([], [], [])
  | p :: ps =>
    let r := killPhase3 out ps
    match out p .sigkill with
    | .ok => (.signal p .sigkill :: .reportForceKilled p :: r.1, p :: r.2.1, r.2.2)
    | _ => (.signal p .sigkill :: r.1, r.2.1, p :: r.2.2)

/-- `kill_existing_processes`, as a trace over the outcomes of the kill
attempts: SIGTERM to every matched process; a 2-second sleep when at least
one SIGTERM succeeded; SIGKILL to every process whose SIGTERM failed with an
error, with a final warning when some still cannot be killed.  Returns
(events, killed, still-failed); the function always returns — no failure
aborts the run. -/
def kill_existing_processes (procs : List ℕ) (out : ℕ → Sig → KOut) :
    List KEvent × List ℕ × List ℕ :=
  if procs = [] then ([], [], [])
  else
    let p1 := killPhase1 out procs
    let ev2 : List KEvent := if p1.2.1 ≠ [] then [.sleep 2] else []
    if p1.2.2 = [] then (p1.1 ++ ev2, p1.2.1, [])
    else
      let p3 := killPhase3 out p1.2.2
      let ev4 : List KEvent :=
        if p3.2.2 ≠ [] then [.warnUnkilled p3.2.2.length] else []
      (p1.1 ++ ev2 ++ (.forceKillMsg p1.2.2.length :: p3.1) ++ ev4,
       p1.2.1 ++ p3.2.1, p3.2.2)

theorem killPhase1_signal {out : ℕ → Sig → KOut} :
    ∀ {ps : List ℕ} {p : ℕ}, p ∈ ps →
      KEvent.signal p .sigterm ∈ (killPhase1 out ps).1 := by
  intro ps
  induction ps with
  | nil => intro p hp; simp at hp
  | cons q qs ih =>
    intro p hp
    rcases List.mem_cons.mp hp with h | h
    · subst h
      cases hq : out p .sigterm <;> simp [killPhase1, hq]
    · cases hq : out q .sigterm <;> simp [killPhase1, hq, ih h]

theorem killPhase1_killed_eq {out : ℕ → Sig → KOut} :
    ∀ {ps : List ℕ}, (killPhase1 out ps).2.1 =
      ps.filter (fun p => out p .sigterm == .ok) := by
  intro ps
  induction ps with
  | nil => rfl
  | cons q qs ih =>
    cases hq : out q .sigterm <;>
      simp [killPhase1, hq, ih, List.filter] <;> rfl

theorem killPhase1_failed_eq {out : ℕ → Sig → KOut} :
    ∀ {ps : List ℕ}, (killPhase1 out ps).2.2 =
      ps.filter (fun p => out p .sigterm == .denied || out p .sigterm == .err) := by
  intro ps
  induction ps with
  | nil => rfl
  | cons q qs ih =>
    cases hq : out q .sigterm <;>
      simp [killPhase1, hq, ih, List.filter] <;> rfl

theorem killPhase1_no_sigkill {out : ℕ → Sig → KOut} :
    ∀ {ps : List ℕ} {p : ℕ},
      KEvent.signal p .sigkill ∉ (killPhase1 out ps).1 := by
  intro ps
  induction ps with
  | nil => intro p; simp [killPhase1]
  | cons q qs ih =>
    intro p
    cases hq : out q .sigterm <;> simp [killPhase1, hq] <;> exact ih

theorem killPhase1_no_sleep {out : ℕ → Sig → KOut} :
    ∀ {ps : List ℕ} {n : ℕ}, KEvent.sleep n ∉ (killPhase1 out ps).1 := by
  intro ps
  induction ps with
  | nil => intro n; simp [killPhase1]
  | cons q qs ih =>
    intro n
    cases hq : out q .sigterm <;> simp [killPhase1, hq] <;> exact ih

theorem killPhase3_signal {out : ℕ → Sig → KOut} :
    ∀ {ps : List ℕ} {p : ℕ}, p ∈ ps →
      KEvent.signal p .sigkill ∈ (killPhase3 out ps).1 := by
  intro ps
  induction ps with
  | nil => intro p hp; simp at hp
  | cons q qs ih =>
    intro p hp
    rcases List.mem_cons.mp hp with h | h
    · subst h
      cases hq : out p .sigkill <;> simp [killPhase3, hq]
    · cases hq : out q .sigkill <;> simp [killPhase3, hq, ih h]

theorem killPhase3_no_sigterm {out : ℕ → Sig → KOut} :
    ∀ {ps : List ℕ} {p : ℕ},
      KEvent.signal p .sigterm ∉ (killPhase3 out ps).1 := by
  intro ps
  induction ps with
  | nil => intro p; simp [killPhase3]
  | cons q qs ih =>
    intro p
    cases hq : out q .sigkill <;> simp [killPhase3, hq] <;> exact ih

theorem killPhase3_no_sleep {out : ℕ → Sig → KOut} :
    ∀ {ps : List ℕ} {n : ℕ}, KEvent.sleep n ∉ (killPhase3 out ps).1 := by
  intro ps
  induction ps with
  | nil => intro n; simp [killPhase3]
  | cons q qs ih =>
    intro n
    cases hq : out q .sigkill <;> simp [killPhase3, hq] <;> exact ih

theorem killPhase3_stillFailed_eq {out : ℕ → Sig → KOut} :
    ∀ {ps : List ℕ}, (killPhase3 out ps).2.2 =
      ps.filter (fun p => !(out p .sigkill == .ok)) := by
  intro ps
  induction ps with
  | nil => rfl
  | cons q qs ih =>
    cases hq : out q .sigkill <;>
      simp [killPhase3, hq, ih, List.filter] <;> rfl

/-- Normal form of `kill_existing_processes` when no SIGTERM failed. -/
theorem kill_existing_eq_no_failed {procs : List ℕ} {out : ℕ → Sig → KOut}
    (hne : procs ≠ []) (hf : (killPhase1 out procs).2.2 = []) :
    kill_existing_processes procs out =
      ((killPhase1 out procs).1 ++
        (if (killPhase1 out procs).2.1 ≠ [] then [KEvent.sleep 2] else []),
       (killPhase1 out procs).2.1, []) := by
  unfold kill_existing_processes
  rw [if_neg hne]
  simp [hf]

/-- Normal form of `kill_existing_processes` when some SIGTERM failed. -/
theorem kill_existing_eq_failed {procs : List ℕ} {out : ℕ → Sig → KOut}
    (hne : procs ≠ []) (hf : (killPhase1 out procs).2.2 ≠ []) :
    kill_existing_processes procs out =
      ((killPhase1 out procs).1 ++
        (if (killPhase1 out procs).2.1 ≠ [] then [KEvent.sleep 2] else []) ++
        (KEvent.forceKillMsg (killPhase1 out procs).2.2.length ::
          (killPhase3 out (killPhase1 out procs).2.2).1) ++
        (if (killPhase3 out (killPhase1 out procs).2.2).2.2 ≠ [] then
          [KEvent.warnUnkilled
            (killPhase3 out (killPhase1 out procs).2.2).2.2.length]
         else []),
       (killPhase1 out procs).2.1 ++
         (killPhase3 out (killPhase1 out procs).2.2).2.1,
       (killPhase3 out (killPhase1 out procs).2.2).2.2) := by
  unfold kill_existing_processes
  rw [if_neg hne]
  simp only [if_neg hf]

/-- Counterexample to C8: when every SIGTERM fails with a permission error,
no process was successfully terminated, so the code skips the 2-second
sleep entirely and sends SIGKILL immediately — the claimed grace period
before the SIGKILL escalation does not occur on this run. -/
theorem C8_kill_grace_counterexample :
    KEvent.signal 7 .sigkill ∈
      (kill_existing_processes [7] (fun _ _ => .denied)).1 ∧
    KEvent.sleep 2 ∉
      (kill_existing_processes [7] (fun _ _ => .denied)).1 := by
  decide

/-- C8 (amended): every process matching the pattern is sent SIGTERM first
and all SIGTERMs precede all SIGKILLs; the 2-second grace period is observed
exactly when at least one process was successfully signalled with SIGTERM
(when every SIGTERM fails the escalation is immediate); every straggler — a
process whose SIGTERM failed with an error — is sent SIGKILL; processes that
still cannot be killed are exactly those remaining in the failed list, they
are reported to the operator, and the function still returns (no abort). -/
theorem C8_kill_escalation_amended :
    ∀ (procs : List ℕ) (out : ℕ → Sig → KOut),
      (∀ p ∈ procs, KEvent.signal p .sigterm ∈
        (kill_existing_processes procs out).1) ∧
      (∀ p ∈ procs, (out p .sigterm = .denied ∨ out p .sigterm = .err) →
        KEvent.signal p .sigkill ∈ (kill_existing_processes procs out).1) ∧
      (KEvent.sleep 2 ∈ (kill_existing_processes procs out).1 ↔
        ∃ p ∈ procs, out p .sigterm = .ok) ∧
      (∃ t1 t2, (kill_existing_processes procs out).1 = t1 ++ t2 ∧
        (∀ p, KEvent.signal p .sigkill ∉ t1) ∧
        (∀ p, KEvent.signal p .sigterm ∉ t2)) ∧
      ((kill_existing_processes procs out).2.2 ≠ [] →
        KEvent.warnUnkilled (kill_existing_processes procs out).2.2.length ∈
          (kill_existing_processes procs out).1) ∧
      (∀ p ∈ (kill_existing_processes procs out).2.2, p ∈ procs ∧
        (out p .sigterm = .denied ∨ out p .sigterm = .err) ∧
        out p .sigkill ≠ .ok) := by
  intro procs out
  by_cases hne : procs = []
  · subst hne
    refine ⟨by simp, by simp, ?_, ⟨[], [], by simp [kill_existing_processes], by simp, by simp⟩,
      by simp [kill_existing_processes], by simp [kill_existing_processes]⟩
    simp [kill_existing_processes]
  · have hsleep : KEvent.sleep 2 ∈
        (if (killPhase1 out procs).2.1 ≠ [] then [KEvent.sleep 2] else []) ↔
        ∃ p ∈ procs, out p .sigterm = .ok := by
      by_cases hk : (killPhase1 out procs).2.1 = []
      · rw [if_neg (by simpa using hk)]
        rw [killPhase1_killed_eq] at hk
        rw [List.filter_eq_nil_iff] at hk
        simp only [List.not_mem_nil, false_iff]
        rintro ⟨p, hp, hpo⟩
        exact hk p hp (by simp [hpo])
      · rw [if_pos hk]
        rw [killPhase1_killed_eq] at hk
        simp only [List.mem_singleton, true_iff]
        obtain ⟨p, hp⟩ := List.exists_mem_of_ne_nil _ hk
        rw [List.mem_filter] at hp
        exact ⟨p, hp.1, by simpa using hp.2⟩
    have hsleep_not1 : ∀ n, KEvent.sleep n ∉ (killPhase1 out procs).1 :=
      fun n => killPhase1_no_sleep
    by_cases hf : (killPhase1 out procs).2.2 = []
    · rw [kill_existing_eq_no_failed hne hf]
      have hnofail : ∀ p ∈ procs,
          ¬(out p .sigterm = .denied ∨ out p .sigterm = .err) := by
        intro p hp hcon
        have : p ∈ (killPhase1 out procs).2.2 := by
          rw [killPhase1_failed_eq, List.mem_filter]
          rcases hcon with h | h <;> exact ⟨hp, by simp [h]⟩
        rw [hf] at this
        simp at this
      refine ⟨?_, ?_, ?_, ?_, ?_, ?_⟩
      · intro p hp
        exact List.mem_append.mpr (Or.inl (killPhase1_signal hp))
      · intro p hp hcon
        exact absurd hcon (hnofail p hp)
      · simp only [List.mem_append]
        constructor
        · rintro (h | h)
          · exact absurd h (hsleep_not1 2)
          · exact hsleep.mp h
        · intro h
          exact Or.inr (hsleep.mpr h)
      · refine ⟨(killPhase1 out procs).1 ++
          (if (killPhase1 out procs).2.1 ≠ [] then [KEvent.sleep 2] else []),
          [], by simp, ?_, by simp⟩
        intro p hcon
        rcases List.mem_append.mp hcon with h | h
        · exact killPhase1_no_sigkill h
        · by_cases hk : (killPhase1 out procs).2.1 = []
          · rw [if_neg (by simpa using hk)] at h
            simp at h
          · rw [if_pos hk] at h
            simp at h
      · intro hcon
        simp at hcon
      · intro p hp
        simp at hp
    · rw [kill_existing_eq_failed hne hf]
      have hmemfail : ∀ p, p ∈ (killPhase1 out procs).2.2 ↔
          p ∈ procs ∧ (out p .sigterm = .denied ∨ out p .sigterm = .err) := by
        intro p
        rw [killPhase1_failed_eq, List.mem_filter]
        constructor
        · rintro ⟨h1, h2⟩
          simp only [Bool.or_eq_true, beq_iff_eq] at h2
          exact ⟨h1, h2⟩
        · rintro ⟨h1, h2⟩
          refine ⟨h1, ?_⟩
          rcases h2 with h | h <;> simp [h]
      refine ⟨?_, ?_, ?_, ?_, ?_, ?_⟩
      · intro p hp
        simp only [List.mem_append]
        exact Or.inl (Or.inl (Or.inl (killPhase1_signal hp)))
      · intro p hp hcon
        have hmem : p ∈ (killPhase1 out procs).2.2 :=
          (hmemfail p).mpr ⟨hp, hcon⟩
        simp only [List.mem_append, List.mem_cons]
        exact Or.inl (Or.inr (Or.inr (killPhase3_signal hmem)))
      · simp only [List.mem_append, List.mem_cons]
        constructor
        · rintro ((((h | h) | (h | h)) | h))
          · exact absurd h (hsleep_not1 2)
          · exact hsleep.mp h
          · exact absurd h (by simp)
          · exact absurd h killPhase3_no_sleep
          · by_cases hw : (killPhase3 out (killPhase1 out procs).2.2).2.2 ≠ []
            · rw [if_pos hw] at h
              simp at h
            · rw [if_neg hw] at h
              simp at h
        · intro h
          exact Or.inl (Or.inl (Or.inr (hsleep.mpr h)))
      · refine ⟨(killPhase1 out procs).1 ++
          (if (killPhase1 out procs).2.1 ≠ [] then [KEvent.sleep 2] else []),
          (KEvent.forceKillMsg (killPhase1 out procs).2.2.length ::
            (killPhase3 out (killPhase1 out procs).2.2).1) ++
          (if (killPhase3 out (killPhase1 out procs).2.2).2.2 ≠ [] then
            [KEvent.warnUnkilled
              (killPhase3 out (killPhase1 out procs).2.2).2.2.length]
           else []), by simp, ?_, ?_⟩
        · intro p hcon
          rcases List.mem_append.mp hcon with h | h
          · exact killPhase1_no_sigkill h
          · by_cases hk : (killPhase1 out procs).2.1 = []
            · rw [if_neg (by simpa using hk)] at h
              simp at h
            · rw [if_pos hk] at h
              simp at h
        · intro p hcon
          rcases List.mem_append.mp hcon with h | h
          · rcases List.mem_cons.mp h with h | h
            · exact absurd h (by simp)
            · exact killPhase3_no_sigterm h
          · by_cases hw : (killPhase3 out (killPhase1 out procs).2.2).2.2 ≠ []
            · rw [if_pos hw] at h
              simp at h
            · rw [if_neg hw] at h
              simp at h
      · intro hw
        simp only [List.mem_append, List.mem_cons]
        refine Or.inr ?_
        rw [if_pos hw]
        simp
      · intro p hp
        have h3 := @killPhase3_stillFailed_eq out ((killPhase1 out procs).2.2)
        rw [h3, List.mem_filter] at hp
        obtain ⟨h1, h2⟩ := hp
        obtain ⟨hin, hout⟩ := (hmemfail p).mp h1
        refine ⟨hin, hout, ?_⟩
        intro he
        rw [he] at h2
        simp at h2

/-- Witness for C8 (amended): two processes, one SIGTERM succeeding and one
permission-denied whose SIGKILL also fails — SIGTERM to both, the grace
sleep present, SIGKILL to the straggler, the warning emitted. -/
theorem C8_kill_escalation_amended_witness :
    (KEvent.signal 3 .sigterm ∈
      (kill_existing_processes [3, 4]
        (fun p _ => if p = 3 then .ok else .denied)).1) ∧
    (KEvent.signal 4 .sigkill ∈
      (kill_existing_processes [3, 4]
        (fun p _ => if p = 3 then .ok else .denied)).1) ∧
    (KEvent.sleep 2 ∈
      (kill_existing_processes [3, 4]
        (fun p _ => if p = 3 then .ok else .denied)).1) := by
  have h := C8_kill_escalation_amended [3, 4]
    (fun p _ => if p = 3 then .ok else .denied)
  refine ⟨h.1 3 (by decide), h.2.1 4 (by decide) (by decide), ?_⟩
  exact h.2.2.1.mpr ⟨3, by decide, by decide⟩

/-! ## `take-screenshot.py` -/

/-- The two `screencapture` modes the script invokes: `-w` (window-select)
and plain full-screen. -/
inductive CapMode where
  | window
  | fullscreen
deriving DecidableEq

/-- How the first (window) capture attempt ends: normal exit with a return
code, `subprocess.TimeoutExpired`, `KeyboardInterrupt`, or another
exception. -/
inductive CapOutcome where
  | exited (code : ℤ)
  | timedOut
  | interrupted
  | errored
deriving DecidableEq

/-- Observable events of the screenshot script. -/
inductive ShotEvent where
  | capture (mode : CapMode) (timeoutSecs : Option ℕ) (file : List Char)
  | openDir (dir : List Char)
deriving DecidableEq

/-- The module-level capture logic of `take-screenshot.py`: invoke
`screencapture -x -w -t png FILENAME` with `timeout=8`; on return code 0
open the screenshot directory; on a nonzero return code (capture
cancelled), on timeout, or on any other exception, fall back to a plain
full-screen `screencapture` into the same `FILENAME`; a raw
`KeyboardInterrupt` only prints a message. -/
def take_screenshot (filename dir : List Char) (outcome : CapOutcome) :
    List ShotEvent :=
  ShotEvent.capture .window (some 8) filename ::
    (match outcome with
     | .exited c =>
       if c = 0 then [ShotEvent.openDir dir]
       else [ShotEvent.capture .fullscreen none filename]
     | .timedOut => [ShotEvent.capture .fullscreen none filename]
     | .interrupted => []
     | .errored => [ShotEvent.capture .fullscreen none filename])

/-- C9: the screenshot helper first invokes the screen-capture tool in
window-select mode with an 8-second timeout, and whenever that capture
times out or is cancelled (nonzero exit), it performs a full-screen capture
into the same timestamped file. -/
theorem C9_screenshot_fallback :
    ∀ (filename dir : List Char) (outcome : CapOutcome),
      ((take_screenshot filename dir outcome).head? =
        some (ShotEvent.capture .window (some 8) filename)) ∧
      (outcome = .timedOut ∨ (∃ c, outcome = .exited c ∧ c ≠ 0) →
        ShotEvent.capture .fullscreen none filename ∈
          take_screenshot filename dir outcome) := by
  intro filename dir outcome
  refine ⟨rfl, ?_⟩
  rintro (h | ⟨c, hc, hcne⟩)
  · subst h
    simp [take_screenshot]
  · subst hc
    unfold take_screenshot
    simp [hcne]

/-- Witness for C9: the timeout outcome falls back to a full-screen capture
of the same file. -/
theorem C9_screenshot_fallback_witness :
    ShotEvent.capture .fullscreen none "shot.png".data ∈
      take_screenshot "shot.png".data "screen-what-i-see".data .timedOut :=
  (C9_screenshot_fallback "shot.png".data "screen-what-i-see".data
    .timedOut).2 (Or.inl rfl)

end MacStats
